import Mathlib

/-!
Shallow embedding of the two source files of this repository
(`src/codec/parameters.rs` and `src/filter/graph.rs`) and proofs about it.

Machine-level conventions of the embedding:
* Raw pointers are `Option Nat` (`none` is the C null pointer; a `Nat` is a heap id).
* The native heaps are association lists from heap ids to record contents; an id
  absent from the list is unallocated (or already freed) memory.
* Backend (native library) calls whose outcome the wrapper merely inspects are
  given their return code as an explicit oracle argument.
* A Rust panic (an explicit panic call or `.unwrap()` on `Err`) is the
  `Outcome.panicked` result.
-/

namespace FfmpegSpec

/-- Byte strings as handed across the FFI boundary (the bytes of a Rust `&str`).
An interior 0 byte makes `CString::new` return an error, which the source
code unconditionally `unwrap`s. -/
abbrev Str := List Nat

/-- True when the byte string contains an interior NUL byte, i.e. exactly when
`CString::new` on it fails and the source's `.unwrap()` panics. -/
def hasNul (s : Str) : Bool := s.contains 0

/-- `media::Type`: the medium kind stored in `AVCodecParameters.codec_type`
(unknown / video / audio / data / subtitle / attachment). -/
inductive MediaType : Type
| unknown
| video
| audio
| dataKind
| subtitle
| attachment
deriving DecidableEq, Repr

/-- The crate's `Error` type. Only `InvalidData` is produced by the embedded
code's own logic; every other value comes from the external error-code
translation (out of scope per the spec), modelled as carrying the raw
backend return code. -/
inductive Error : Type
| invalidData
| other (code : Int)
deriving DecidableEq, Repr

/-- `Error::from(code)` applied to a backend failure code: external translation
glue, modelled as the injection keeping the raw code. -/
def Error.fromCode (code : Int) : Error := Error.other code

/-- Result of running one operation: normal return, a returned `Err` value,
or a Rust panic/process abort. -/
inductive Outcome (α : Type) : Type
| ok (a : α)
| err (e : Error)
| panicked
deriving DecidableEq, Repr

/-- Association-list read: the contents at heap id `k`, or `none` when `k` is
not allocated. -/
def lookA {α : Type} (l : List (Nat × α)) (k : Nat) : Option α :=
  match l with
  | [] => none
  | kv :: tl => if kv.1 == k then some kv.2 else lookA tl k

/-- Association-list write through a pointer: update the record at heap id `k`. -/
def updA {α : Type} (l : List (Nat × α)) (k : Nat) (f : α → α) : List (Nat × α) :=
  l.map (fun kv => if kv.1 == k then (kv.1, f kv.2) else kv)

/-- Association-list free: drop the record at heap id `k`. -/
def removeA {α : Type} (l : List (Nat × α)) (k : Nat) : List (Nat × α) :=
  l.filter (fun kv => kv.1 != k)

/-- The fields of a native `AVCodecParameters` block that the embedded
operations read or write. Fields none of the embedded operations touch
(width, height, formats, channel data, ...) are omitted. -/
structure ParamBlock : Type where
  codec_type : MediaType
  codec_id : Nat
  profile : Int
  level : Int
  bit_rate : Int
  extradata : Option (List Nat)
deriving DecidableEq, Repr

/-- The defaulted block `avcodec_parameters_alloc` returns (zeroed/default
fields; medium unknown). -/
def ParamBlock.zeroed : ParamBlock :=
  { codec_type := MediaType.unknown, codec_id := 0, profile := 0, level := 0,
    bit_rate := 0, extradata := none }

/-- The native heap of codec-parameter blocks together with the table of `Rc`
shared owners: each rc id maps to (strong count, heap id of the native block
whose lifetime the owner controls). -/
structure Mem : Type where
  next : Nat
  blocks : List (Nat × ParamBlock)
  rcs : List (Nat × (Nat × Nat))
deriving DecidableEq, Repr

/-- Heap well-formedness: every allocated block id and every rc-guarded block id
is below the allocation counter, so a fresh allocation never aliases them. -/
def Mem.wf (m : Mem) : Bool :=
  m.blocks.all (fun kv => decide (kv.1 < m.next)) &&
    m.rcs.all (fun kv => decide (kv.2.2 < m.next))

/-- Dereference a parameter-block pointer. -/
def Mem.lookupBlock (m : Mem) (ptr : Option Nat) : Option ParamBlock :=
  match ptr with
  | none => none
  | some k => lookA m.blocks k

/-- Write `codec_type` through a parameter-block pointer
(the `(*self.as_mut_ptr()).codec_type = ...` stores in `video()`/`audio()`). -/
def Mem.setCodecType (m : Mem) (ptr : Option Nat) (t : MediaType) : Mem :=
  match ptr with
  | none => m
  | some k => { m with blocks := updA m.blocks k (fun b => { b with codec_type := t }) }

/-- `avcodec_parameters_free`: release the block behind the pointer
(a null pointer is a no-op, matching the native routine). -/
def Mem.freeBlock (m : Mem) (ptr : Option Nat) : Mem :=
  match ptr with
  | none => m
  | some k => { m with blocks := removeA m.blocks k }

/-- Dropping the `Rc<dyn Drop>` handle held by a borrowed descriptor: the strong
count is decremented; when it reaches zero the owner value itself is dropped.
Modelled from the spec: the owner's own `Drop` is outside `src/`; per the spec
("the block is freed only when the last holder (including the original owner)
is gone") it releases the native block it guards. -/
def Mem.decRc (m : Mem) (rc : Nat) : Mem :=
  match lookA m.rcs rc with
  | none => m
  | some cb =>
    if cb.1 ≤ 1 then
      { m with blocks := removeA m.blocks cb.2, rcs := removeA m.rcs rc }
    else
      { m with rcs := updA m.rcs rc (fun cb0 => (cb0.1 - 1, cb0.2)) }

/-- `Parameters`: the raw block pointer (`none` = null) plus the optional shared
owner (`Option<Rc<dyn Drop>>`, as the owner's rc id). `owner = none` is the
exclusive ownership mode, `owner = some rc` the borrowed mode. -/
structure Parameters : Type where
  ptr : Option Nat
  owner : Option Nat
deriving DecidableEq, Repr

/-- `Parameters::new`: calls `avcodec_parameters_alloc` and stores the result
WITHOUT a null check — on native out-of-memory (`allocOk = false`) it returns
normally, wrapping the null pointer. -/
def Parameters.new (m : Mem) (allocOk : Bool) : Parameters × Mem :=
  if allocOk then
    ({ ptr := some m.next, owner := none },
      { m with next := m.next + 1, blocks := (m.next, ParamBlock.zeroed) :: m.blocks })
  else
    ({ ptr := none, owner := none }, m)

/-- `Parameters::wrap(ptr, owner)`: wrap an existing native block. The Rust
caller moves an `Rc` clone in; cloning the `Rc` increments the strong count
(the increment is the caller-side `Rc::clone`, per the spec's description of
borrowed construction). -/
def Parameters.wrap (m : Mem) (ptr : Option Nat) (owner : Option Nat) : Parameters × Mem :=
  match owner with
  | none => ({ ptr := ptr, owner := none }, m)
  | some rc =>
    ({ ptr := ptr, owner := some rc },
      { m with rcs := updA m.rcs rc (fun cb => (cb.1 + 1, cb.2)) })

/-- `Parameters::medium`: read `codec_type` through the pointer. A `none` result
is a null/dangling dereference, undefined behaviour in the source. -/
def Parameters.medium (m : Mem) (p : Parameters) : Option MediaType :=
  (m.lookupBlock p.ptr).map ParamBlock.codec_type

/-- `Parameters::id`: `Id::from(codec_id)`; the external `Id` enumeration is out
of scope, so the raw code stands for it. -/
def Parameters.id (m : Mem) (p : Parameters) : Option Nat :=
  (m.lookupBlock p.ptr).map ParamBlock.codec_id

/-- `Parameters::profile`: `Profile::from((self.id(), profile_field))`; the
external `Profile` table is out of scope, so the pair it is built from stands
for the result. -/
def Parameters.profile (m : Mem) (p : Parameters) : Option (Nat × Int) :=
  (m.lookupBlock p.ptr).map (fun b => (b.codec_id, b.profile))

/-- `Parameters::level` accessor. -/
def Parameters.level (m : Mem) (p : Parameters) : Option Int :=
  (m.lookupBlock p.ptr).map ParamBlock.level

/-- `Parameters::bit_rate` accessor. -/
def Parameters.bit_rate (m : Mem) (p : Parameters) : Option Int :=
  (m.lookupBlock p.ptr).map ParamBlock.bit_rate

/-- `Parameters::extradata` accessor: `none` when the stored extradata pointer
is null, else the byte view. -/
def Parameters.extradata (m : Mem) (p : Parameters) : Option (Option (List Nat)) :=
  (m.lookupBlock p.ptr).map ParamBlock.extradata

/-- `Drop for Parameters`: `avcodec_parameters_free` only when `owner` is
`None`; otherwise only the `Rc` owner field's drop glue runs. -/
def Parameters.drop (m : Mem) (p : Parameters) : Mem :=
  match p.owner with
  | none => m.freeBlock p.ptr
  | some rc => m.decRc rc

/-- The `Video` view: `pub struct Video(pub Parameters)` — a newtype over the
underlying descriptor, no storage of its own. -/
structure Video : Type where
  toParameters : Parameters
deriving DecidableEq, Repr

/-- The `Audio` view: `pub struct Audio(pub Parameters)`. -/
structure Audio : Type where
  toParameters : Parameters
deriving DecidableEq, Repr

/-- `Parameters::video`: consuming narrowing. From medium unknown the tag is set
to video; from video it succeeds without mutation; otherwise `Err(InvalidData)`
and the consumed `self` is dropped on function exit. (The `none` medium case is
a null dereference, undefined in the source; the model routes it into the
failure branch and every theorem assumes an allocated block.) -/
def Parameters.video (m : Mem) (p : Parameters) : Except Error Video × Mem :=
  match Parameters.medium m p with
  | some MediaType.unknown =>
    (Except.ok { toParameters := p }, m.setCodecType p.ptr MediaType.video)
  | some MediaType.video => (Except.ok { toParameters := p }, m)
  | _ => (Except.error Error.invalidData, Parameters.drop m p)

/-- `Parameters::audio`: symmetric to `Parameters.video`. -/
def Parameters.audio (m : Mem) (p : Parameters) : Except Error Audio × Mem :=
  match Parameters.medium m p with
  | some MediaType.unknown =>
    (Except.ok { toParameters := p }, m.setCodecType p.ptr MediaType.audio)
  | some MediaType.audio => (Except.ok { toParameters := p }, m)
  | _ => (Except.error Error.invalidData, Parameters.drop m p)

/-- `avcodec_parameters_copy(dst, src)` (backend operation): replace dst's
fields with a deep copy of src's. With a null or dangling operand the native
call would fault; the model leaves the heap unchanged there, and the theorems
assume allocated operands. -/
def Mem.paramsCopy (m : Mem) (dst src : Option Nat) : Mem :=
  match dst, src with
  | some d, some s =>
    match lookA m.blocks s with
    | some sb => { m with blocks := updA m.blocks d (fun _ => sb) }
    | none => m
  | _, _ => m

/-- `Clone::clone_from for Parameters`: a single `avcodec_parameters_copy` from
`source` into `self`. -/
def Parameters.clone_from (m : Mem) (p source : Parameters) : Mem :=
  m.paramsCopy p.ptr source.ptr

/-- `Clone::clone for Parameters`: `Parameters::new()` then `clone_from`. -/
def Parameters.clone (m : Mem) (p : Parameters) (allocOk : Bool) : Parameters × Mem :=
  let r := Parameters.new m allocOk
  (r.1, Parameters.clone_from r.2 r.1 p)

/-- A borrowed filter-context reference (`Context<'b>` wraps the node pointer);
identified here by the node's name. -/
structure Ctx : Type where
  name : Str
deriving DecidableEq, Repr

/-- `Graph`: the native `AVFilterGraph` handle plus the native graph contents
(the names of the nodes created in it), inlined into the wrapper because the
wrapper holds the graph exclusively. -/
structure Graph : Type where
  ptr : Option Nat
  filters : List Str
deriving DecidableEq, Repr

/-- `Graph::new`: `avfilter_graph_alloc`, then an explicit null check that
panics with "out of memory" — so a null handle is never stored. -/
def Graph.new (allocOk : Bool) : Outcome Graph :=
  if allocOk then Outcome.ok { ptr := some 0, filters := [] } else Outcome.panicked

/-- `Graph::validate`: `avfilter_graph_config`, whose return code is the oracle
`ret`; exactly 0 is success. -/
def Graph.validate (g : Graph) (ret : Int) : Outcome Unit :=
  if ret == 0 then Outcome.ok () else Outcome.err (Error.fromCode ret)

/-- `Graph::add`: `CString::new(name).unwrap()` and `CString::new(args).unwrap()`
(panic on an interior NUL), then `avfilter_graph_create_filter` with return
code oracle `ret`; on `ret >= 0` the backend has registered the node under
`name` and a scoped `Context` is returned. -/
def Graph.add (g : Graph) (name args : Str) (ret : Int) : Outcome (Graph × Ctx) :=
  if hasNul name || hasNul args then Outcome.panicked
  else if 0 ≤ ret then
    Outcome.ok ({ g with filters := g.filters ++ [name] }, { name := name })
  else Outcome.err (Error.fromCode ret)

/-- `Graph::get`: `CString::new(name).unwrap()` (panic on an interior NUL), then
`avfilter_graph_get_filter`: `Some` of the node when the name is registered,
`None` otherwise. -/
def Graph.get (g : Graph) (name : Str) : Outcome (Option Ctx) :=
  if hasNul name then Outcome.panicked
  else if g.filters.contains name then Outcome.ok (some { name := name })
  else Outcome.ok none

/-- A native `AVFilterInOut` pad-binding record: duplicated name, node pointer,
pad index, and the link to the next record (`none` = null). -/
structure InOut : Type where
  name : Str
  filter_ctx : Str
  pad_idx : Int
  next : Option Nat
deriving DecidableEq, Repr

/-- The native heap of allocated `AVFilterInOut` records. -/
structure GHeap : Type where
  next : Nat
  inouts : List (Nat × InOut)
deriving DecidableEq, Repr

/-- `Parser`: the head pointers of the two accumulated pad-binding lists. The
`&mut Graph` it borrows is threaded as an explicit argument instead. -/
structure Parser : Type where
  inputs : Option Nat
  outputs : Option Nat
deriving DecidableEq, Repr

/-- `Parser::new`: both list heads start null. -/
def Parser.new : Parser := { inputs := none, outputs := none }

/-- `Parser::input`: look the name up in the graph (`Err(InvalidData)` when
absent, panic when the name holds an interior NUL), `avfilter_inout_alloc` a
record (panic on native out-of-memory, `allocOk = false`), fill it, and attach
it. The attach step is the source's own: when the list is non-empty the new
record is written into the HEAD record's `next` field — not appended after the
current tail. -/
def Parser.input (g : Graph) (p : Parser) (h : GHeap) (name : Str) (pad : Nat)
    (allocOk : Bool) : Outcome Parser × GHeap :=
  match Graph.get g name with
  | Outcome.panicked => (Outcome.panicked, h)
  | Outcome.err e => (Outcome.err e, h)
  | Outcome.ok none => (Outcome.err Error.invalidData, h)
  | Outcome.ok (some ctx) =>
    if allocOk then
      let node : InOut :=
        { name := name, filter_ctx := ctx.name, pad_idx := (pad : Int), next := none }
      let h1 : GHeap := { next := h.next + 1, inouts := (h.next, node) :: h.inouts }
      match p.inputs with
      | none => (Outcome.ok { p with inputs := some h.next }, h1)
      | some head =>
        (Outcome.ok p,
          { h1 with inouts := updA h1.inouts head (fun r => { r with next := some h.next }) })
    else (Outcome.panicked, h)

/-- `Parser::output`: symmetric to `Parser.input`, on the outputs list. -/
def Parser.output (g : Graph) (p : Parser) (h : GHeap) (name : Str) (pad : Nat)
    (allocOk : Bool) : Outcome Parser × GHeap :=
  match Graph.get g name with
  | Outcome.panicked => (Outcome.panicked, h)
  | Outcome.err e => (Outcome.err e, h)
  | Outcome.ok none => (Outcome.err Error.invalidData, h)
  | Outcome.ok (some ctx) =>
    if allocOk then
      let node : InOut :=
        { name := name, filter_ctx := ctx.name, pad_idx := (pad : Int), next := none }
      let h1 : GHeap := { next := h.next + 1, inouts := (h.next, node) :: h.inouts }
      match p.outputs with
      | none => (Outcome.ok { p with outputs := some h.next }, h1)
      | some head =>
        (Outcome.ok p,
          { h1 with inouts := updA h1.inouts head (fun r => { r with next := some h.next }) })
    else (Outcome.panicked, h)

/-- `avfilter_inout_free`: walk the chain from the head pointer, freeing every
record. The fuel argument bounds the walk (callers pass the current heap size,
enough for any duplicate-free chain); the native routine's behaviour on a
cyclic or dangling chain is undefined and the model simply stops there. -/
def freeChain : GHeap → Option Nat → Nat → GHeap
  | h, none, _ => h
  | h, some _, 0 => h
  | h, some k, Nat.succ fuel =>
    match lookA h.inouts k with
    | none => h
    | some node => freeChain { h with inouts := removeA h.inouts k } node.next fuel

/-- `Parser::parse`: `CString::new(spec).unwrap()` (panic on an interior NUL,
BEFORE the backend call and before either list is released), then
`avfilter_graph_parse_ptr` with return code oracle `ret` (its mutation of the
graph itself is backend-internal and out of scope), then `avfilter_inout_free`
on both list heads, then the result match. -/
def Parser.parse (g : Graph) (p : Parser) (h : GHeap) (spec : Str) (ret : Int) :
    Outcome Unit × GHeap :=
  if hasNul spec then (Outcome.panicked, h)
  else
    let h1 := freeChain h p.inputs h.inouts.length
    let h2 := freeChain h1 p.outputs h1.inouts.length
    if 0 ≤ ret then (Outcome.ok (), h2) else (Outcome.err (Error.fromCode ret), h2)

/-- Dropping a `Parser`: the source defines NO `Drop` impl for `Parser`; its
fields are two raw pointers and a borrowed reference, whose drop glue releases
nothing, so discarding a parser leaves the record heap unchanged. -/
def Parser.drop (p : Parser) (h : GHeap) : GHeap := h

/-- `Graph::input` convenience entry point: fresh parser, then `input`. -/
def Graph.input (g : Graph) (h : GHeap) (name : Str) (pad : Nat) (allocOk : Bool) :
    Outcome Parser × GHeap :=
  Parser.input g Parser.new h name pad allocOk

/-- `Graph::output` convenience entry point: fresh parser, then `output`. -/
def Graph.output (g : Graph) (h : GHeap) (name : Str) (pad : Nat) (allocOk : Bool) :
    Outcome Parser × GHeap :=
  Parser.output g Parser.new h name pad allocOk

/-- `Graph::parse` convenience entry point: fresh parser, then `parse`. -/
def Graph.parse (g : Graph) (h : GHeap) (spec : Str) (ret : Int) :
    Outcome Unit × GHeap :=
  Parser.parse g Parser.new h spec ret

/-- Observer: `chainFrom h ptr ids` holds when following `next` pointers from
`ptr` traverses exactly the records with ids `ids`, in order, ending at null. -/
def chainFrom (h : GHeap) : Option Nat → List Nat → Bool
  | none, [] => true
  | none, _ :: _ => false
  | some _, [] => false
  | some k, k0 :: rest =>
    k == k0 &&
      (match lookA h.inouts k0 with
       | none => false
       | some node => chainFrom h node.next rest)

/-! Concrete states used to evaluate the operations on small inputs. -/

/-- A test graph holding three nodes named "a", "b", "c" (bytes 97, 98, 99). -/
def gABC : Graph := { ptr := some 0, filters := [[97], [98], [99]] }

/-- The empty pad-binding heap. -/
def gh0 : GHeap := { next := 0, inouts := [] }

/-- Test-harness plumbing: run one `Parser::input` call expected to succeed and
keep the resulting parser/heap pair. -/
def stepIn (st : Parser × GHeap) (name : Str) : Parser × GHeap :=
  match Parser.input gABC st.1 st.2 name 0 true with
  | (Outcome.ok p, h) => (p, h)
  | (_, h) => (st.1, h)

/-- Test-harness plumbing: run one `Parser::output` call expected to succeed. -/
def stepOut (st : Parser × GHeap) (name : Str) : Parser × GHeap :=
  match Parser.output gABC st.1 st.2 name 0 true with
  | (Outcome.ok p, h) => (p, h)
  | (_, h) => (st.1, h)

/-- State after `input("a",0)`, `input("b",0)`, `input("c",0)` on a fresh parser
(records get heap ids 0, 1, 2 in that order). -/
def threeInputs : Parser × GHeap :=
  stepIn (stepIn (stepIn (Parser.new, gh0) [97]) [98]) [99]

/-- State after a single `input("a",0)` on a fresh parser. -/
def oneInput : Parser × GHeap := stepIn (Parser.new, gh0) [97]

/-- State after `output("a",0)`, `output("b",0)`, `output("c",0)` on a fresh
parser. -/
def threeOutputs : Parser × GHeap :=
  stepOut (stepOut (stepOut (Parser.new, gh0) [97]) [98]) [99]

/-- A video-medium parameter block (H.264-flavoured field values). -/
def vBlock : ParamBlock :=
  { codec_type := MediaType.video, codec_id := 27, profile := 100, level := 41,
    bit_rate := 300000, extradata := some [1, 2, 3] }

/-- An audio-medium parameter block. -/
def aBlock : ParamBlock :=
  { codec_type := MediaType.audio, codec_id := 86018, profile := 1, level := 0,
    bit_rate := 128000, extradata := none }

/-- An unknown-medium parameter block. -/
def uBlock : ParamBlock := { ParamBlock.zeroed with codec_id := 5 }

/-- Heap for the `clone_from` medium-reset scenario: block 0 video, block 1
unknown. -/
def mCF : Mem := { next := 2, blocks := [(0, vBlock), (1, uBlock)], rcs := [] }

/-- Exclusive descriptor over block 0 of `mCF`. -/
def pTarget : Parameters := { ptr := some 0, owner := none }

/-- Exclusive descriptor over block 1 of `mCF`. -/
def pSource : Parameters := { ptr := some 1, owner := none }

/-- Heap with one video block (id 3) guarded by rc 0 whose strong count is 2
(the external owner plus one borrowed descriptor). -/
def mRc : Mem := { next := 4, blocks := [(3, vBlock)], rcs := [(0, (2, 3))] }

/-- The borrowed descriptor over block 3 of `mRc`, holding rc 0. -/
def pBorrowed : Parameters := { ptr := some 3, owner := some 0 }

/-- Heap with a single unknown-medium block. -/
def mU : Mem := { next := 1, blocks := [(0, ParamBlock.zeroed)], rcs := [] }

/-- Exclusive descriptor over the unknown-medium block of `mU`. -/
def pU : Parameters := { ptr := some 0, owner := none }

/-- Pad-binding heap with two singleton chains (ids 0 and 1), used to exercise
`Parser::parse`. -/
def hTwo : GHeap :=
  { next := 2,
    inouts := [(0, { name := [97], filter_ctx := [97], pad_idx := 0, next := none }),
               (1, { name := [98], filter_ctx := [98], pad_idx := 0, next := none })] }

/-- Parser whose inputs list is record 0 and outputs list record 1 of `hTwo`. -/
def pTwo : Parser := { inputs := some 0, outputs := some 1 }

/-! Association-list heap lemmas. -/

theorem lookA_mem {α : Type} {l : List (Nat × α)} {k : Nat} {v : α}
    (h : lookA l k = some v) : (k, v) ∈ l := by
  induction l with
  | nil => simp [lookA] at h
  | cons kv tl ih =>
    by_cases hk : kv.1 = k
    · simp only [lookA, hk, beq_self_eq_true, if_true] at h
      subst hk
      cases h
      exact List.mem_cons_self _ _
    · simp only [lookA, beq_iff_eq, hk, if_false] at h
      exact List.mem_cons_of_mem _ (ih h)

theorem lookA_updA_self {α : Type} (l : List (Nat × α)) (k : Nat) (f : α → α) :
    lookA (updA l k f) k = (lookA l k).map f := by
  induction l with
  | nil => rfl
  | cons kv tl ih =>
    simp only [updA, beq_iff_eq] at ih ⊢
    by_cases hk : kv.1 = k
    · simp [lookA, hk]
    · simp only [List.map_cons, if_neg hk, lookA, beq_iff_eq]
      exact ih

theorem lookA_updA_ne {α : Type} (l : List (Nat × α)) (k j : Nat) (f : α → α)
    (h : j ≠ k) : lookA (updA l k f) j = lookA l j := by
  induction l with
  | nil => rfl
  | cons kv tl ih =>
    simp only [updA, beq_iff_eq] at ih ⊢
    by_cases hk : kv.1 = k
    · have hj : kv.1 ≠ j := fun e => h (e ▸ hk)
      simp only [List.map_cons, if_pos hk, lookA, beq_iff_eq]
      rw [if_neg (hk ▸ hj), if_neg hj]
      exact ih
    · simp only [List.map_cons, if_neg hk, lookA, beq_iff_eq]
      by_cases hj : kv.1 = j
      · rw [if_pos hj, if_pos hj]
      · rw [if_neg hj, if_neg hj]
        exact ih

theorem lookA_removeA_self {α : Type} (l : List (Nat × α)) (k : Nat) :
    lookA (removeA l k) k = none := by
  induction l with
  | nil => rfl
  | cons kv tl ih =>
    simp only [removeA] at ih ⊢
    by_cases hk : kv.1 = k
    · have hb : (kv.1 != k) = false := by simp [hk]
      simp only [List.filter_cons, hb, Bool.false_eq_true, if_false]
      exact ih
    · have hb : (kv.1 != k) = true := by simp [hk]
      simp only [List.filter_cons, hb, if_true, lookA, beq_iff_eq]
      rw [if_neg hk]
      exact ih

theorem lookA_removeA_ne {α : Type} (l : List (Nat × α)) (k j : Nat)
    (h : j ≠ k) : lookA (removeA l k) j = lookA l j := by
  induction l with
  | nil => rfl
  | cons kv tl ih =>
    simp only [removeA] at ih ⊢
    by_cases hk : kv.1 = k
    · have hj : kv.1 ≠ j := fun e => h (e ▸ hk)
      have hb : (kv.1 != k) = false := by simp [hk]
      simp only [List.filter_cons, hb, Bool.false_eq_true, if_false, lookA, beq_iff_eq]
      rw [if_neg hj]
      exact ih
    · have hb : (kv.1 != k) = true := by simp [hk]
      simp only [List.filter_cons, hb, if_true, lookA, beq_iff_eq]
      by_cases hj : kv.1 = j
      · rw [if_pos hj, if_pos hj]
      · rw [if_neg hj, if_neg hj]
        exact ih

theorem removeA_length_lt {α : Type} {l : List (Nat × α)} {k : Nat} {v : α}
    (h : lookA l k = some v) : (removeA l k).length < l.length := by
  induction l with
  | nil => simp [lookA] at h
  | cons kv tl ih =>
    by_cases hk : kv.1 = k
    · simp only [removeA, List.filter_cons, hk, bne_self_eq_false]
      exact Nat.lt_succ_of_le (List.length_filter_le _ _)
    · simp only [lookA, beq_iff_eq, hk, if_false] at h
      have hne : (kv.1 != k) = true := by simp [hk]
      simp only [removeA, List.filter_cons, hne, List.length_cons]
      exact Nat.succ_lt_succ (ih h)

/-! Well-formedness consequences. -/

theorem wf_blocks_lt {m : Mem} {k : Nat} {b : ParamBlock}
    (hwf : m.wf = true) (hb : lookA m.blocks k = some b) : k < m.next := by
  have hmem := lookA_mem hb
  have h1 := (Bool.and_eq_true _ _).mp hwf |>.1
  have h2 := List.all_eq_true.mp h1 _ hmem
  exact of_decide_eq_true h2

theorem wf_rcs_lt {m : Mem} {rc : Nat} {cb : Nat × Nat}
    (hwf : m.wf = true) (hb : lookA m.rcs rc = some cb) : cb.2 < m.next := by
  have hmem := lookA_mem hb
  have h1 := (Bool.and_eq_true _ _).mp hwf |>.2
  have h2 := List.all_eq_true.mp h1 _ hmem
  exact of_decide_eq_true h2

/-- Destruction only ever removes blocks: any block read after a drop is either
gone or unchanged. -/
theorem drop_lookA (m : Mem) (q : Parameters) (k : Nat) :
    lookA (Parameters.drop m q).blocks k = none ∨
    lookA (Parameters.drop m q).blocks k = lookA m.blocks k := by
  obtain ⟨qp, qo⟩ := q
  cases qo with
  | none =>
    cases qp with
    | none => exact Or.inr rfl
    | some j =>
      simp only [Parameters.drop, Mem.freeBlock]
      by_cases hk : k = j
      · subst hk
        exact Or.inl (lookA_removeA_self _ _)
      · exact Or.inr (lookA_removeA_ne _ _ _ hk)
  | some rc =>
    simp only [Parameters.drop, Mem.decRc]
    cases hrc : lookA m.rcs rc with
    | none => simp [hrc]
    | some cb =>
      simp only [hrc]
      by_cases hc : cb.1 ≤ 1
      · rw [if_pos hc]
        by_cases hk : k = cb.2
        · subst hk
          exact Or.inl (lookA_removeA_self _ _)
        · exact Or.inr (lookA_removeA_ne _ _ _ hk)
      · rw [if_neg hc]
        exact Or.inr rfl

/-! Chain traversal lemmas. -/

theorem chainFrom_congr (ids : List Nat) :
    ∀ (h h' : GHeap) (ptr : Option Nat),
      (∀ k, k ∈ ids → lookA h'.inouts k = lookA h.inouts k) →
      chainFrom h' ptr ids = chainFrom h ptr ids := by
  induction ids with
  | nil =>
    intro h h' ptr _
    cases ptr <;> rfl
  | cons k0 rest ih =>
    intro h h' ptr hl
    cases ptr with
    | none => rfl
    | some k =>
      simp only [chainFrom]
      rw [hl k0 (List.mem_cons_self _ _)]
      cases hv : lookA h.inouts k0 with
      | none => rfl
      | some node =>
        simp only [ih h h' node.next (fun j hj => hl j (List.mem_cons_of_mem _ hj))]

theorem chainFrom_length_le (ids : List Nat) :
    ∀ (h : GHeap) (ptr : Option Nat),
      chainFrom h ptr ids = true → ids.Nodup → ids.length ≤ h.inouts.length := by
  induction ids with
  | nil =>
    intro h ptr _ _
    exact Nat.zero_le _
  | cons k0 rest ih =>
    intro h ptr hc hnd
    cases ptr with
    | none => simp [chainFrom] at hc
    | some k =>
      simp only [chainFrom, Bool.and_eq_true] at hc
      obtain ⟨-, hm⟩ := hc
      cases hv : lookA h.inouts k0 with
      | none => rw [hv] at hm; cases hm
      | some node =>
        rw [hv] at hm
        have hni : k0 ∉ rest := (List.nodup_cons.mp hnd).1
        have hnd' : rest.Nodup := (List.nodup_cons.mp hnd).2
        have hch : chainFrom { h with inouts := removeA h.inouts k0 } node.next rest = true := by
          rw [chainFrom_congr rest h { h with inouts := removeA h.inouts k0 } node.next
            (fun k hk => lookA_removeA_ne _ _ _ (fun e => hni (e ▸ hk)))]
          exact hm
        have h1 : rest.length ≤ (removeA h.inouts k0).length := by
          simpa using ih { h with inouts := removeA h.inouts k0 } node.next hch hnd'
        have h2 : (removeA h.inouts k0).length < h.inouts.length := removeA_length_lt hv
        simp only [List.length_cons]
        omega

theorem freeChain_sem (ids : List Nat) :
    ∀ (h : GHeap) (ptr : Option Nat) (fuel : Nat),
      chainFrom h ptr ids = true → ids.Nodup → ids.length ≤ fuel →
      ∀ k, lookA (freeChain h ptr fuel).inouts k =
        if k ∈ ids then none else lookA h.inouts k := by
  induction ids with
  | nil =>
    intro h ptr fuel hc _ _ k
    cases ptr with
    | none => simp [freeChain]
    | some k0 => simp [chainFrom] at hc
  | cons k0 rest ih =>
    intro h ptr fuel hc hnd hlen k
    cases ptr with
    | none => simp [chainFrom] at hc
    | some kk =>
      simp only [chainFrom, Bool.and_eq_true, beq_iff_eq] at hc
      obtain ⟨hkk, hm⟩ := hc
      rw [hkk]
      cases hv : lookA h.inouts k0 with
      | none => rw [hv] at hm; cases hm
      | some node =>
        rw [hv] at hm
        cases fuel with
        | zero => simp at hlen
        | succ f =>
          have hni : k0 ∉ rest := (List.nodup_cons.mp hnd).1
          have hnd' : rest.Nodup := (List.nodup_cons.mp hnd).2
          have hch : chainFrom { h with inouts := removeA h.inouts k0 } node.next rest = true := by
            rw [chainFrom_congr rest h { h with inouts := removeA h.inouts k0 } node.next
              (fun j hj => lookA_removeA_ne _ _ _ (fun e => hni (e ▸ hj)))]
            exact hm
          have hstep : freeChain h (some k0) (Nat.succ f) =
              freeChain { h with inouts := removeA h.inouts k0 } node.next f := by
            simp only [freeChain, hv]
          rw [hstep]
          have hres := ih { h with inouts := removeA h.inouts k0 } node.next f hch hnd'
            (by simp only [List.length_cons] at hlen; omega) k
          rw [hres]
          by_cases hk : k ∈ rest
          · simp [hk]
          · by_cases hk0 : k = k0
            · subst hk0
              simp [hk, lookA_removeA_self, hv]
            · simp only [if_neg hk]
              rw [lookA_removeA_ne _ _ _ hk0]
              have : k ∉ k0 :: rest := by
                intro hmem
                rcases List.mem_cons.mp hmem with h1 | h1
                · exact hk0 h1
                · exact hk h1
              rw [if_neg this]

/-! Claim theorems. -/

/-- C2 (code_bug evidence): after the three successful calls `input("a",0)`,
`input("b",0)`, `input("c",0)` on a fresh parser, the accumulated input list is
NOT the three bindings in call order. The head's `next` field was overwritten
at each step, so the walk from the head visits exactly records 0 ("a") and
2 ("c"), record 1 ("b") is no longer reachable from the list although it is
still allocated, and the claimed chain [a, b, c] does not hold. -/
theorem input_third_binding_lost :
    threeInputs.1.inputs = some 0 ∧
    chainFrom threeInputs.2 threeInputs.1.inputs [0, 2] = true ∧
    chainFrom threeInputs.2 threeInputs.1.inputs [0, 1, 2] = false ∧
    lookA threeInputs.2.inouts 1 =
      some { name := [98], filter_ctx := [98], pad_idx := 0, next := none } := by
  decide

/-- C3 (code_bug evidence): a parser on which `input("a",0)` succeeded and
`parse` is never called is discarded; since the source defines no `Drop` for
`Parser`, discarding it releases nothing — the allocated pad-binding record
(id 0) is still in the native heap afterwards, i.e. it leaks. -/
theorem parser_discard_leaks_bindings :
    Parser.drop oneInput.1 oneInput.2 = oneInput.2 ∧
    lookA (Parser.drop oneInput.1 oneInput.2).inouts 0 =
      some { name := [97], filter_ctx := [97], pad_idx := 0, next := none } := by
  decide

/-- C10 (code_bug evidence): `output` on a name absent from the graph fails
with invalid-data and allocates nothing — but on the success path the claim
that each call "appends exactly one binding record" fails at the third call:
the walk from the outputs head visits records 0 and 2 only, record 1 having
been overwritten out of the list (it stays allocated but unreachable). -/
theorem output_absent_name_and_append :
    Parser.output gABC Parser.new gh0 [100] 0 true =
      (Outcome.err Error.invalidData, gh0) ∧
    chainFrom threeOutputs.2 threeOutputs.1.outputs [0, 2] = true ∧
    chainFrom threeOutputs.2 threeOutputs.1.outputs [0, 1, 2] = false ∧
    lookA threeOutputs.2.inouts 1 =
      some { name := [98], filter_ctx := [98], pad_idx := 0, next := none } := by
  decide

/-- C6 (counterexample): on a null allocation result (`allocOk = false`),
`Parameters::new` does NOT abort — it returns normally, handing back a
descriptor wrapping the null handle, contradicting the claim that a null
allocation aborts rather than returning such a descriptor. -/
theorem parameters_new_null_without_abort :
    (Parameters.new mU false).1 = { ptr := none, owner := none } ∧
    (Parameters.new mU false).2 = mU := by
  decide

/-- C6 (amended): `Graph::new` aborts on native out-of-memory and otherwise
holds a non-null handle; `Parameters::new` yields a non-null handle when
allocation succeeds, but on a null allocation result it returns a descriptor
wrapping the null handle instead of aborting. -/
theorem alloc_failure_policy_amended :
    Graph.new false = Outcome.panicked ∧
    Graph.new true = Outcome.ok { ptr := some 0, filters := [] } ∧
    (∀ m : Mem, (Parameters.new m true).1.ptr = some m.next) ∧
    (∀ m : Mem, (Parameters.new m false).1 = { ptr := none, owner := none }) := by
  refine ⟨rfl, rfl, fun m => ?_, fun m => ?_⟩ <;> simp [Parameters.new]

/-- C7 (counterexample): a node name carrying an interior NUL byte makes both
`Graph::get` and `Graph::add` panic (the `CString::new(..).unwrap()`), although
an unresolvable name / rejected argument is an expected failure path that the
claim requires to be returned as a result value. -/
theorem get_with_nul_name_panics :
    Graph.get gABC [0] = Outcome.panicked ∧
    Graph.add gABC [97, 0] [] 0 = Outcome.panicked := by
  decide

/-- C4 (counterexample): `clone_from` copies every field of the source block,
including the medium tag — copying from an unknown-medium source into a
descriptor whose medium is video resets that medium to unknown, contradicting
the claim that no operation other than fresh construction ever does so. -/
theorem clone_from_resets_medium_to_unknown :
    Parameters.medium mCF pTarget = some MediaType.video ∧
    Parameters.medium (Parameters.clone_from mCF pTarget pSource) pTarget =
      some MediaType.unknown := by
  decide

/-- C8 (counterexample): `parse` on a spec string holding an interior NUL byte
panics in `CString::new(..).unwrap()` before the backend call and before the
release step — the non-empty accumulated input list (record 0) is NOT
released, contradicting the claim that every `parse(spec)` call releases both
lists before returning. -/
theorem parse_nul_spec_skips_release :
    (Parser.parse gABC oneInput.1 oneInput.2 [0] 0).1 = Outcome.panicked ∧
    (Parser.parse gABC oneInput.1 oneInput.2 [0] 0).2 = oneInput.2 ∧
    lookA oneInput.2.inouts 0 =
      some { name := [97], filter_ctx := [97], pad_idx := 0, next := none } := by
  decide

/-- C1: the `video()`/`audio()` transition table. With medium unknown,
`video()` succeeds and the underlying descriptor's medium becomes video, after
which `audio()` on it fails with invalid-data; with medium video, `video()`
succeeds without mutating anything and `audio()` fails with invalid-data;
symmetrically for audio; with any other concrete medium both fail with
invalid-data. -/
theorem video_audio_transition_table (m : Mem) (p : Parameters) (k : Nat)
    (b : ParamBlock) (hp : p.ptr = some k) (hb : lookA m.blocks k = some b) :
    (b.codec_type = MediaType.unknown →
      (Parameters.video m p).1 = Except.ok { toParameters := p } ∧
      Parameters.medium (Parameters.video m p).2 p = some MediaType.video ∧
      (Parameters.audio (Parameters.video m p).2 p).1 =
        Except.error Error.invalidData) ∧
    (b.codec_type = MediaType.video →
      Parameters.video m p = (Except.ok { toParameters := p }, m) ∧
      (Parameters.audio m p).1 = Except.error Error.invalidData) ∧
    (b.codec_type = MediaType.unknown →
      (Parameters.audio m p).1 = Except.ok { toParameters := p } ∧
      Parameters.medium (Parameters.audio m p).2 p = some MediaType.audio ∧
      (Parameters.video (Parameters.audio m p).2 p).1 =
        Except.error Error.invalidData) ∧
    (b.codec_type = MediaType.audio →
      Parameters.audio m p = (Except.ok { toParameters := p }, m) ∧
      (Parameters.video m p).1 = Except.error Error.invalidData) ∧
    ((b.codec_type = MediaType.dataKind ∨ b.codec_type = MediaType.subtitle ∨
        b.codec_type = MediaType.attachment) →
      (Parameters.video m p).1 = Except.error Error.invalidData ∧
      (Parameters.audio m p).1 = Except.error Error.invalidData) := by
  have hmed : Parameters.medium m p = some b.codec_type := by
    simp [Parameters.medium, Mem.lookupBlock, hp, hb]
  refine ⟨fun hct => ?_, fun hct => ?_, fun hct => ?_, fun hct => ?_, fun hct => ?_⟩
  · have h1 : Parameters.video m p =
        (Except.ok { toParameters := p }, m.setCodecType p.ptr MediaType.video) := by
      rw [Parameters.video, hmed, hct]
    have hmed2 : Parameters.medium (m.setCodecType p.ptr MediaType.video) p =
        some MediaType.video := by
      simp [Parameters.medium, Mem.lookupBlock, Mem.setCodecType, hp,
        lookA_updA_self, hb]
    refine ⟨by rw [h1], by rw [h1]; exact hmed2, ?_⟩
    rw [h1]
    rw [Parameters.audio, hmed2]
  · have h1 : Parameters.video m p = (Except.ok { toParameters := p }, m) := by
      rw [Parameters.video, hmed, hct]
    refine ⟨h1, ?_⟩
    rw [Parameters.audio, hmed, hct]
  · have h1 : Parameters.audio m p =
        (Except.ok { toParameters := p }, m.setCodecType p.ptr MediaType.audio) := by
      rw [Parameters.audio, hmed, hct]
    have hmed2 : Parameters.medium (m.setCodecType p.ptr MediaType.audio) p =
        some MediaType.audio := by
      simp [Parameters.medium, Mem.lookupBlock, Mem.setCodecType, hp,
        lookA_updA_self, hb]
    refine ⟨by rw [h1], by rw [h1]; exact hmed2, ?_⟩
    rw [h1]
    rw [Parameters.video, hmed2]
  · have h1 : Parameters.audio m p = (Except.ok { toParameters := p }, m) := by
      rw [Parameters.audio, hmed, hct]
    refine ⟨h1, ?_⟩
    rw [Parameters.video, hmed, hct]
  · rcases hct with hct | hct | hct <;>
      exact ⟨by rw [Parameters.video, hmed, hct], by rw [Parameters.audio, hmed, hct]⟩

/-- C1 (witness): the transition table evaluated on a freshly allocated
unknown-medium descriptor: `video()` succeeds on it. -/
theorem video_audio_transition_table_witness :
    pU.ptr = some 0 ∧ lookA mU.blocks 0 = some ParamBlock.zeroed ∧
    (Parameters.video mU pU).1 = Except.ok { toParameters := pU } :=
  ⟨rfl, rfl, ((video_audio_transition_table mU pU 0 ParamBlock.zeroed rfl rfl).1 rfl).1⟩

/-- C4 (amended): once a descriptor's medium is video or audio, neither
`video()` nor `audio()` (the accessors being pure reads), nor `clone_from`
from a source whose medium is not unknown, ever resets its medium to unknown;
`clone_from` installs the source's medium verbatim, which is why an
unknown-medium source is excluded. -/
theorem medium_never_reset_amended (m : Mem) (p : Parameters) (k : Nat)
    (b : ParamBlock) (hp : p.ptr = some k) (hb : lookA m.blocks k = some b)
    (hm : b.codec_type = MediaType.video ∨ b.codec_type = MediaType.audio) :
    Parameters.medium (Parameters.video m p).2 p ≠ some MediaType.unknown ∧
    Parameters.medium (Parameters.audio m p).2 p ≠ some MediaType.unknown ∧
    ∀ s : Parameters, Parameters.medium m s ≠ some MediaType.unknown →
      Parameters.medium (Parameters.clone_from m p s) p ≠ some MediaType.unknown := by
  have hmed : Parameters.medium m p = some b.codec_type := by
    simp [Parameters.medium, Mem.lookupBlock, hp, hb]
  have hdrop : Parameters.medium (Parameters.drop m p) p ≠ some MediaType.unknown := by
    rcases drop_lookA m p k with hnone | hsame
    · simp [Parameters.medium, Mem.lookupBlock, hp, hnone]
    · simp only [Parameters.medium, Mem.lookupBlock, hp, hsame, hb]
      rcases hm with h | h <;> simp [h]
  refine ⟨?_, ?_, ?_⟩
  · rcases hm with h | h
    · rw [Parameters.video, hmed, h]
      rw [hmed, h]
      simp
    · rw [Parameters.video, hmed, h]
      exact hdrop
  · rcases hm with h | h
    · rw [Parameters.audio, hmed, h]
      exact hdrop
    · rw [Parameters.audio, hmed, h]
      rw [hmed, h]
      simp
  · intro s hs
    cases hsp : s.ptr with
    | none =>
      have he : Parameters.clone_from m p s = m := by
        simp [Parameters.clone_from, Mem.paramsCopy, hp, hsp]
      rw [he, hmed]
      rcases hm with h | h <;> simp [h]
    | some ks =>
      cases hsb : lookA m.blocks ks with
      | none =>
        have he : Parameters.clone_from m p s = m := by
          simp [Parameters.clone_from, Mem.paramsCopy, hp, hsp, hsb]
        rw [he, hmed]
        rcases hm with h | h <;> simp [h]
      | some sb =>
        have he : Parameters.clone_from m p s =
            { m with blocks := updA m.blocks k (fun _ => sb) } := by
          simp [Parameters.clone_from, Mem.paramsCopy, hp, hsp, hsb]
        have hsmed : sb.codec_type ≠ MediaType.unknown := by
          intro heq
          apply hs
          simp [Parameters.medium, Mem.lookupBlock, hsp, hsb, heq]
        have hres : Parameters.medium (Parameters.clone_from m p s) p =
            some sb.codec_type := by
          rw [he]
          simp [Parameters.medium, Mem.lookupBlock, hp, lookA_updA_self, hb]
        rw [hres]
        simpa using hsmed

/-- C4 (amended, witness): evaluated on a video-medium descriptor: `video()`
leaves its medium different from unknown. -/
theorem medium_never_reset_amended_witness :
    pTarget.ptr = some 0 ∧ lookA mCF.blocks 0 = some vBlock ∧
    Parameters.medium (Parameters.video mCF pTarget).2 pTarget ≠
      some MediaType.unknown :=
  ⟨rfl, rfl, (medium_never_reset_amended mCF pTarget 0 vBlock rfl rfl (Or.inl rfl)).1⟩

/-- C5: `clone()` always produces an exclusive descriptor (`owner = none`) over
a fresh block that is a deep copy of the source's (same id, same profile);
whatever the source's ownership mode, destroying the source afterwards leaves
the clone's block intact (so a clone of a borrowed descriptor outlives it),
and destroying the clone then releases its own block. -/
theorem clone_deep_copy_exclusive (m : Mem) (p : Parameters) (k : Nat)
    (b : ParamBlock) (hwf : m.wf = true) (hp : p.ptr = some k)
    (hb : lookA m.blocks k = some b) :
    (Parameters.clone m p true).1.owner = none ∧
    (Parameters.clone m p true).1.ptr = some m.next ∧
    Parameters.id (Parameters.clone m p true).2 (Parameters.clone m p true).1 =
      Parameters.id m p ∧
    Parameters.profile (Parameters.clone m p true).2 (Parameters.clone m p true).1 =
      Parameters.profile m p ∧
    Parameters.medium (Parameters.drop (Parameters.clone m p true).2 p)
      (Parameters.clone m p true).1 = some b.codec_type ∧
    lookA (Parameters.drop (Parameters.drop (Parameters.clone m p true).2 p)
      (Parameters.clone m p true).1).blocks m.next = none := by
  have hkn : k < m.next := wf_blocks_lt hwf hb
  have hkne : k ≠ m.next := Nat.ne_of_lt hkn
  have hc : Parameters.clone m p true =
      ({ ptr := some m.next, owner := none },
        { next := m.next + 1,
          blocks := updA ((m.next, ParamBlock.zeroed) :: m.blocks) m.next (fun _ => b),
          rcs := m.rcs }) := by
    unfold Parameters.clone Parameters.new Parameters.clone_from Mem.paramsCopy
    simp only [if_true, hp]
    have hlk : lookA ((m.next, ParamBlock.zeroed) :: m.blocks) k = some b := by
      simp only [lookA, beq_iff_eq]
      rw [if_neg (fun e => hkne e.symm)]
      exact hb
    rw [hlk]
  have hlookup2 :
      lookA (updA ((m.next, ParamBlock.zeroed) :: m.blocks) m.next (fun _ => b))
        m.next = some b := by
    rw [lookA_updA_self]
    simp [lookA]
  have hrcwf : ∀ rc cb, lookA m.rcs rc = some cb → cb.2 ≠ m.next :=
    fun rc cb hrc => Nat.ne_of_lt (wf_rcs_lt hwf hrc)
  have hdropkeeps :
      lookA (Parameters.drop (Parameters.clone m p true).2 p).blocks m.next =
        some b := by
    rw [hc]
    obtain ⟨pp, po⟩ := p
    simp only at hp
    subst hp
    cases po with
    | none =>
      simp only [Parameters.drop, Mem.freeBlock]
      rw [lookA_removeA_ne _ _ _ (fun e => hkne e.symm)]
      exact hlookup2
    | some rc =>
      simp only [Parameters.drop, Mem.decRc]
      cases hrc : lookA m.rcs rc with
      | none => exact hlookup2
      | some cb =>
        simp only [hrc]
        by_cases hcb : cb.1 ≤ 1
        · rw [if_pos hcb]
          simp only
          rw [lookA_removeA_ne _ _ _ (fun e => hrcwf rc cb hrc e.symm)]
          exact hlookup2
        · rw [if_neg hcb]
          exact hlookup2
  refine ⟨by rw [hc], by rw [hc], ?_, ?_, ?_, ?_⟩
  · rw [hc]
    simp [Parameters.id, Mem.lookupBlock, hlookup2, hp, hb]
  · rw [hc]
    simp [Parameters.profile, Mem.lookupBlock, hlookup2, hp, hb]
  · have h1 : (Parameters.clone m p true).1.ptr = some m.next := by rw [hc]
    simp [Parameters.medium, Mem.lookupBlock, h1, hdropkeeps]
  · rw [show (Parameters.clone m p true).1 =
        ({ ptr := some m.next, owner := none } : Parameters) from by rw [hc]]
    simp only [Parameters.drop, Mem.freeBlock]
    exact lookA_removeA_self _ _

/-- C5 (witness): cloning the borrowed descriptor of `mRc`, then destroying the
source, leaves the clone's block readable (medium still video). -/
theorem clone_deep_copy_exclusive_witness :
    mRc.wf = true ∧ pBorrowed.ptr = some 3 ∧ lookA mRc.blocks 3 = some vBlock ∧
    Parameters.medium (Parameters.drop (Parameters.clone mRc pBorrowed true).2 pBorrowed)
      (Parameters.clone mRc pBorrowed true).1 = some vBlock.codec_type :=
  ⟨by decide, rfl, by decide,
    (clone_deep_copy_exclusive mRc pBorrowed 3 vBlock (by decide) rfl
      (by decide)).2.2.2.2.1⟩

/-- C9: destruction of an exclusive descriptor (`owner = none`) frees exactly
its own native block and touches no reference count; destruction of a borrowed
descriptor frees nothing while other holders remain (the shared owner's strong
count is merely decremented), and only when the descriptor is the last holder
(count 1) is the guarded block freed. -/
theorem drop_ownership_semantics (m : Mem) (p : Parameters) (k : Nat)
    (hp : p.ptr = some k) :
    (p.owner = none →
      lookA (Parameters.drop m p).blocks k = none ∧
      (Parameters.drop m p).rcs = m.rcs ∧
      ∀ j, j ≠ k → lookA (Parameters.drop m p).blocks j = lookA m.blocks j) ∧
    (∀ rc c blk, p.owner = some rc → lookA m.rcs rc = some (c, blk) →
      (2 ≤ c →
        (Parameters.drop m p).blocks = m.blocks ∧
        lookA (Parameters.drop m p).rcs rc = some (c - 1, blk)) ∧
      (c = 1 →
        lookA (Parameters.drop m p).blocks blk = none ∧
        lookA (Parameters.drop m p).rcs rc = none)) := by
  constructor
  · intro ho
    obtain ⟨pp, po⟩ := p
    simp only at hp ho
    subst hp
    subst ho
    simp only [Parameters.drop, Mem.freeBlock]
    exact ⟨lookA_removeA_self _ _, by trivial, fun j hj => lookA_removeA_ne _ _ _ hj⟩
  · intro rc c blk ho hrc
    obtain ⟨pp, po⟩ := p
    simp only at hp ho
    subst hp
    subst ho
    simp only [Parameters.drop, Mem.decRc, hrc]
    constructor
    · intro hc2
      have hcb : ¬((c, blk).1 ≤ 1) := by simp; omega
      rw [if_neg hcb]
      refine ⟨rfl, ?_⟩
      rw [lookA_updA_self, hrc]
      rfl
    · intro hc1
      subst hc1
      rw [if_pos (by simp)]
      exact ⟨lookA_removeA_self _ _, lookA_removeA_self _ _⟩

/-- C9 (witness): dropping the borrowed descriptor of `mRc` (shared count 2)
leaves the block table unchanged and decrements the count to 1. -/
theorem drop_ownership_semantics_witness :
    pBorrowed.ptr = some 3 ∧
    (Parameters.drop mRc pBorrowed).blocks = mRc.blocks ∧
    lookA (Parameters.drop mRc pBorrowed).rcs 0 = some (1, 3) :=
  ⟨rfl,
    ((drop_ownership_semantics mRc pBorrowed 3 rfl).2 0 2 3 rfl (by decide)).1
      (by omega)⟩

/-- C7 (amended): for inputs whose strings carry no interior NUL byte, and
while native allocation succeeds, no public graph operation panics: every
recoverable failure (missing node, backend rejection) is returned as a result
value. (Strings with an interior NUL byte panic in `CString::new(..).unwrap()`,
and native allocation failure also panics, per the counterexample.) -/
theorem no_panic_without_nul (g : Graph) (p : Parser) (h : GHeap)
    (name args spec : Str) (pad : Nat) (ret : Int)
    (hn : hasNul name = false) (ha : hasNul args = false)
    (hs : hasNul spec = false) :
    Graph.add g name args ret ≠ Outcome.panicked ∧
    Graph.get g name ≠ Outcome.panicked ∧
    Graph.validate g ret ≠ Outcome.panicked ∧
    (Parser.input g p h name pad true).1 ≠ Outcome.panicked ∧
    (Parser.output g p h name pad true).1 ≠ Outcome.panicked ∧
    (Parser.parse g p h spec ret).1 ≠ Outcome.panicked := by
  have hget : Graph.get g name =
      (if g.filters.contains name then Outcome.ok (some { name := name })
        else Outcome.ok none) := by
    rw [Graph.get, if_neg (by rw [hn]; exact Bool.false_ne_true)]
  refine ⟨?_, ?_, ?_, ?_, ?_, ?_⟩
  · rw [Graph.add]
    rw [if_neg (by rw [hn, ha]; exact Bool.false_ne_true)]
    split <;> simp
  · rw [hget]
    split <;> simp
  · rw [Graph.validate]
    split <;> simp
  · rw [Parser.input, hget]
    by_cases hcon : g.filters.contains name
    · rw [if_pos hcon]
      cases hpi : p.inputs <;> simp [hpi]
    · rw [if_neg hcon]
      simp
  · rw [Parser.output, hget]
    by_cases hcon : g.filters.contains name
    · rw [if_pos hcon]
      cases hpo : p.outputs <;> simp [hpo]
    · rw [if_neg hcon]
      simp
  · rw [Parser.parse]
    rw [if_neg (by rw [hs]; exact Bool.false_ne_true)]
    split <;> simp

/-- C7 (amended, witness): `Graph::add` with NUL-free name and argument strings
does not panic. -/
theorem no_panic_without_nul_witness :
    hasNul ([97] : Str) = false ∧ hasNul ([] : Str) = false ∧
    Graph.add gABC [97] [] 0 ≠ Outcome.panicked :=
  ⟨rfl, rfl, (no_panic_without_nul gABC Parser.new gh0 [97] [] [] 0 0 rfl rfl rfl).1⟩

/-- C8 (amended): for every spec string free of interior NUL bytes, `parse`
returns success exactly when the backend's link-resolution code is
non-negative (otherwise the mapped backend error), and on both paths alike it
releases both accumulated pad-binding chains: every record of either chain is
gone from the heap afterwards and every other record is untouched. (The chains
are assumed well-formed — duplicate-free and disjoint — which holds for every
chain the builder can produce; a spec with an interior NUL byte instead panics
before any release, per the counterexample.) -/
theorem parse_releases_chains (g : Graph) (p : Parser) (H : GHeap) (spec : Str)
    (ret : Int) (ids1 ids2 : List Nat) (hnul : hasNul spec = false)
    (hc1 : chainFrom H p.inputs ids1 = true)
    (hc2 : chainFrom H p.outputs ids2 = true)
    (hn1 : ids1.Nodup) (hn2 : ids2.Nodup)
    (hdisj : ∀ k, k ∈ ids1 → k ∉ ids2) :
    (Parser.parse g p H spec ret).1 =
      (if 0 ≤ ret then Outcome.ok () else Outcome.err (Error.fromCode ret)) ∧
    ∀ k, lookA (Parser.parse g p H spec ret).2.inouts k =
      if k ∈ ids1 ∨ k ∈ ids2 then none else lookA H.inouts k := by
  have hf1 : ids1.length ≤ H.inouts.length := chainFrom_length_le ids1 H p.inputs hc1 hn1
  have s1 := freeChain_sem ids1 H p.inputs H.inouts.length hc1 hn1 hf1
  have hc2m : chainFrom (freeChain H p.inputs H.inouts.length) p.outputs ids2 = true := by
    rw [chainFrom_congr ids2 H (freeChain H p.inputs H.inouts.length) p.outputs
      (fun k hk => by
        rw [s1 k]
        rw [if_neg (fun hmem => hdisj k hmem hk)])]
    exact hc2
  have hf2 : ids2.length ≤ (freeChain H p.inputs H.inouts.length).inouts.length :=
    chainFrom_length_le ids2 _ p.outputs hc2m hn2
  have s2 := freeChain_sem ids2 (freeChain H p.inputs H.inouts.length) p.outputs
    (freeChain H p.inputs H.inouts.length).inouts.length hc2m hn2 hf2
  have hrun : Parser.parse g p H spec ret =
      (if 0 ≤ ret then Outcome.ok () else Outcome.err (Error.fromCode ret),
        freeChain (freeChain H p.inputs H.inouts.length) p.outputs
          (freeChain H p.inputs H.inouts.length).inouts.length) := by
    rw [Parser.parse]
    rw [if_neg (by rw [hnul]; exact Bool.false_ne_true)]
    split <;> simp_all
  constructor
  · rw [hrun]
  · intro k
    rw [hrun]
    simp only
    rw [s2 k]
    by_cases hk2 : k ∈ ids2
    · simp [hk2]
    · rw [if_neg hk2, s1 k]
      by_cases hk1 : k ∈ ids1
      · simp [hk1]
      · have hnor : ¬(k ∈ ids1 ∨ k ∈ ids2) := by
          intro hor
          rcases hor with h1 | h1
          · exact hk1 h1
          · exact hk2 h1
        rw [if_neg hk1, if_neg hnor]

/-- C8 (amended, witness): `parse("")` on a parser holding the two singleton
chains of `hTwo` succeeds and empties the record heap exactly on those two
records. -/
theorem parse_releases_chains_witness :
    hasNul ([] : Str) = false ∧
    ((Parser.parse gABC pTwo hTwo [] 0).1 =
        (if (0 : Int) ≤ 0 then Outcome.ok () else Outcome.err (Error.fromCode 0)) ∧
      ∀ k, lookA (Parser.parse gABC pTwo hTwo [] 0).2.inouts k =
        if k ∈ [0] ∨ k ∈ [1] then none else lookA hTwo.inouts k) :=
  ⟨rfl,
    parse_releases_chains gABC pTwo hTwo [] 0 [0] [1] rfl (by decide) (by decide)
      (by decide) (by decide)
      (fun k hk => by
        simp only [List.mem_singleton] at hk
        simp [hk])⟩

end FfmpegSpec
